import Mathlib

/-!
Shallow embedding of the `kvs` log-structured key-value store
(src/lib.rs) together with proofs about the claims of its design
document.  The log file is modelled as a list of characters, the
`BTreeMap` index as a key-sorted association list, and the serde_json
line codec as an explicit escape/parse pair.
-/

deriving instance DecidableEq for Except

namespace ToyCask

/-- A string of the program, modelled as a list of characters; the log
file contents are one such list. -/
abbrev Str := List Char

/-- The opening brace character of the JSON encoding. -/
def lbrace : Char := Char.ofNat 123

/-- The closing brace character of the JSON encoding. -/
def rbrace : Char := Char.ofNat 125

/-- Lowercase hexadecimal digit, as serde_json prints inside unicode
escape sequences. -/
def hexDigit (n : Nat) : Char :=
  if n < 10 then Char.ofNat (48 + n) else Char.ofNat (87 + n)

/-- Escape one character of a JSON string body, following serde_json's
escape table: quote and backslash are escaped, control characters below
0x20 get a short escape or a 4-digit unicode escape, everything else is
emitted raw. -/
def escChar (c : Char) : Str :=
  if c = '"' then ['\\', '"']
  else if c = '\\' then ['\\', '\\']
  else if c.toNat < 32 then
    if c = Char.ofNat 8 then ['\\', 'b']
    else if c = '\t' then ['\\', 't']
    else if c = '\n' then ['\\', 'n']
    else if c = Char.ofNat 12 then ['\\', 'f']
    else if c = '\r' then ['\\', 'r']
    else ['\\', 'u', '0', '0', hexDigit (c.toNat / 16), hexDigit (c.toNat % 16)]
  else [c]

/-- Escape the body of a JSON string. -/
def escape (s : Str) : Str := (s.map escChar).flatten

/-- A JSON string literal: quote, escaped body, closing quote. -/
def quoteStr (s : Str) : Str := '"' :: (escape s ++ ['"'])

/-- The `Op` enum of src/lib.rs: a `Set` record, a `Rm` tombstone, and
the unused `Get` variant that is never persisted by the engine. -/
inductive Op where
  | Set (k v : Str)
  | Rm (k : Str)
  | Get (k : Str)
deriving DecidableEq

/-- serde_json serialization of `Op` (externally tagged): the tuple
variant `Set` becomes `{"Set":[key,value]}`, the newtype variants become
`{"Rm":key}` and `{"Get":key}`. -/
def encode : Op → Str
  | Op.Set k v => lbrace :: '"' :: 'S' :: 'e' :: 't' :: '"' :: ':' :: '[' ::
      (quoteStr k ++ ',' :: quoteStr v ++ [']', rbrace])
  | Op.Rm k => lbrace :: '"' :: 'R' :: 'm' :: '"' :: ':' :: (quoteStr k ++ [rbrace])
  | Op.Get k => lbrace :: '"' :: 'G' :: 'e' :: 't' :: '"' :: ':' :: (quoteStr k ++ [rbrace])

/-- JSON insignificant whitespace. -/
def isWs (c : Char) : Bool := c = ' ' || c = '\t' || c = '\n' || c = '\r'

/-- Skip insignificant whitespace, as serde_json's reader does between
tokens and after the value. -/
def skipWs (s : Str) : Str := s.dropWhile isWs

/-- Parse one hexadecimal digit. -/
def parseHexDigit (c : Char) : Option Nat :=
  if '0' ≤ c ∧ c ≤ '9' then some (c.toNat - 48)
  else if 'a' ≤ c ∧ c ≤ 'f' then some (c.toNat - 87)
  else if 'A' ≤ c ∧ c ≤ 'F' then some (c.toNat - 55)
  else none

/-- Parse a 4-digit hexadecimal scalar of a unicode escape. -/
def parseHex4 (a b c d : Char) : Option Nat := do
  let x ← parseHexDigit a
  let y ← parseHexDigit b
  let z ← parseHexDigit c
  let w ← parseHexDigit d
  pure (4096 * x + 256 * y + 16 * z + w)

/-- Resolve a one-character JSON escape. -/
def unescSimple (e : Char) : Option Char :=
  if e = '"' then some '"'
  else if e = '\\' then some '\\'
  else if e = '/' then some '/'
  else if e = 'b' then some (Char.ofNat 8)
  else if e = 'f' then some (Char.ofNat 12)
  else if e = 'n' then some '\n'
  else if e = 'r' then some '\r'
  else if e = 't' then some '\t'
  else none

/-- Parse the body of a JSON string up to and including the closing
quote, returning the decoded content and the remaining input.  Raw
control characters and lone surrogate escapes are rejected, as
serde_json rejects them. -/
def parseStringBody (s : Str) : Option (Str × Str) :=
  match s with
  | [] => none
  | c :: rest =>
    if c = '"' then some ([], rest)
    else if c = '\\' then
      match rest with
      | [] => none
      | e :: rest2 =>
        if e = 'u' then
          match rest2 with
          | h1 :: h2 :: h3 :: h4 :: rest3 =>
            match parseHex4 h1 h2 h3 h4 with
            | none => none
            | some n =>
              if 55296 ≤ n ∧ n ≤ 57343 then none
              else match parseStringBody rest3 with
                | none => none
                | some (sres, r) => some (Char.ofNat n :: sres, r)
          | _ => none
        else
          match unescSimple e with
          | none => none
          | some c2 =>
            match parseStringBody rest2 with
            | none => none
            | some (sres, r) => some (c2 :: sres, r)
    else if c.toNat < 32 then none
    else
      match parseStringBody rest with
      | none => none
      | some (sres, r) => some (c :: sres, r)
termination_by s.length
decreasing_by all_goals simp_wf <;> omega

/-- Parse a JSON string literal including its opening quote. -/
def parseQuoted (s : Str) : Option (Str × Str) :=
  match s with
  | [] => none
  | c :: rest => if c = '"' then parseStringBody rest else none

/-- Parse one serialized `Op` value, returning the remaining input.
This models serde_json's deserializer on the externally tagged `Op`
schema: an object with a single known tag. -/
def parseOp (s : Str) : Option (Op × Str) :=
  match s with
  | [] => none
  | c :: rest =>
    if c = lbrace then
      match parseQuoted (skipWs rest) with
      | none => none
      | some (tag, r1) =>
        match skipWs r1 with
        | [] => none
        | c2 :: r2 =>
          if c2 = ':' then
            if tag = ['S', 'e', 't'] then
              match skipWs r2 with
              | [] => none
              | c3 :: r4 =>
                if c3 = '[' then
                  match parseQuoted (skipWs r4) with
                  | none => none
                  | some (k, r5) =>
                    match skipWs r5 with
                    | [] => none
                    | c4 :: r6 =>
                      if c4 = ',' then
                        match parseQuoted (skipWs r6) with
                        | none => none
                        | some (v, r7) =>
                          match skipWs r7 with
                          | [] => none
                          | c5 :: r8 =>
                            if c5 = ']' then
                              match skipWs r8 with
                              | [] => none
                              | c6 :: r9 =>
                                if c6 = rbrace then some (Op.Set k v, r9) else none
                            else none
                      else none
                else none
            else if tag = ['R', 'm'] then
              match parseQuoted (skipWs r2) with
              | none => none
              | some (k, r5) =>
                match skipWs r5 with
                | [] => none
                | c4 :: r6 => if c4 = rbrace then some (Op.Rm k, r6) else none
            else if tag = ['G', 'e', 't'] then
              match parseQuoted (skipWs r2) with
              | none => none
              | some (k, r5) =>
                match skipWs r5 with
                | [] => none
                | c4 :: r6 => if c4 = rbrace then some (Op.Get k, r6) else none
            else none
          else none
    else none

/-- Deserialize one `Op` from a byte slice, as `serde_json::from_slice`
does: parse the value, then require that only whitespace remains. -/
def decode (s : Str) : Option Op :=
  match parseOp (skipWs s) with
  | none => none
  | some (op, rest) => if skipWs rest = [] then some op else none

/-- Strict lexicographic order on strings, mirroring the `Ord` instance
of Rust strings that the `BTreeMap` index sorts by. -/
def strLt : Str → Str → Bool
  | [], [] => false
  | [], _ :: _ => true
  | _ :: _, [] => false
  | a :: as, b :: bs => if a < b then true else if b < a then false else strLt as bs

/-- The in-memory index: `BTreeMap<String, u64>` modelled as an
association list kept sorted by key, so that iterating it yields entries
in ascending key order exactly as the `BTreeMap` iterator does. -/
abbrev Index := List (Str × Nat)

/-- `BTreeMap::get`. -/
def idxLookup (k : Str) : Index → Option Nat
  | [] => none
  | (k2, o) :: rest => if k = k2 then some o else idxLookup k rest

/-- `BTreeMap::insert`: replace the entry of an existing key, otherwise
insert at the sorted position. -/
def idxInsert (k : Str) (off : Nat) : Index → Index
  | [] => [(k, off)]
  | (k2, o) :: rest =>
    if strLt k k2 then (k, off) :: (k2, o) :: rest
    else if k = k2 then (k, off) :: rest
    else (k2, o) :: idxInsert k off rest

/-- `BTreeMap::remove`: drop the entry of the key (a map holds at most
one entry per key). -/
def idxRemove (k : Str) (idx : Index) : Index :=
  idx.filter (fun kv => !(kv.1 = k))

/-- The `KvStore` struct of src/lib.rs together with the contents of its
single log file (`log_file` names the file on disk; here the disk holds
exactly that file, so the state carries its contents directly). -/
structure KvStore where
  index : Index
  file : Str
  log_size : Nat
deriving DecidableEq

/-- The compaction threshold `1024*1024` from `KvStore::compact`. -/
def THRESHOLD : Nat := 1024 * 1024

/-- `BufRead::read_line` starting at a byte offset: everything from the
offset up to and including the next newline (or up to end of file when
no newline follows). -/
def readLine0 (rest : Str) : Str :=
  let l := rest.takeWhile (fun c => c != '\n')
  if l.length < rest.length then l ++ ['\n'] else l

/-- Seek to `off` and read one line, as `get` and `compact` do. -/
def readLineRaw (f : Str) (off : Nat) : Str := readLine0 (f.drop off)

/-- `KvStore::compact` (src/lib.rs lines 190-211): when `log_size` has
reached the threshold, read one line at each offset stored in the index
(in ascending key order), concatenate them, overwrite the log file with
that buffer and set `log_size` to its length.  The index itself is left
untouched, exactly as in the source. -/
def compact (s : KvStore) : KvStore :=
  if THRESHOLD ≤ s.log_size then
    let content := (s.index.map (fun kv => readLineRaw s.file kv.2)).flatten
    { index := s.index, file := content, log_size := content.length }
  else s

/-- The Rust `Result` type of the store. -/
inductive KvError where
  | InvalidCommandError
  | InvalidKeyError
  | KeyNotFoundError
  | IoError
  | SerdeJsonError
deriving DecidableEq

/-- `KvStore::set` (src/lib.rs lines 89-111).  The serialized record
plus newline is appended at the end of the file, whose prior length is
the offset recorded in the index; `log_size` grows by the appended
length; then `compact` runs.  `writeOk` selects whether the
`file.write` call succeeds: when it fails, the error is propagated by
`?` before the index is touched (the size counter was already bumped on
line 100, before the write). -/
def setOp (s : KvStore) (k v : Str) (writeOk : Bool) : Except KvError Unit × KvStore :=
  let line := encode (Op.Set k v) ++ ['\n']
  let offset := s.file.length
  let s1 : KvStore := { s with log_size := s.log_size + line.length }
  if writeOk then
    (Except.ok (),
      compact { s1 with file := s1.file ++ line, index := idxInsert k offset s1.index })
  else (Except.error KvError.IoError, s1)

/-- The successful path of `KvStore::set`. -/
def set (s : KvStore) (k v : Str) : KvStore := (setOp s k v true).2

/-- `KvStore::remove` (src/lib.rs lines 140-165): when the key is
present, append the tombstone, overwrite (`=`, not `+=`) `log_size`
with the appended length, drop the key from the index and run
`compact`; otherwise fail with `KeyNotFoundError` touching nothing. -/
def removeOp (s : KvStore) (k : Str) : Except KvError Unit × KvStore :=
  match idxLookup k s.index with
  | some _ =>
    let line := encode (Op.Rm k) ++ ['\n']
    (Except.ok (),
      compact { index := idxRemove k s.index, file := s.file ++ line,
                log_size := line.length })
  | none => (Except.error KvError.KeyNotFoundError, s)

/-- `KvStore::get` (src/lib.rs lines 113-138): look the key up in the
index; when absent return `None`; otherwise seek to the offset, read
one line, deserialize it and demand a `Set` record of the same key.
The borrow is shared (`&self`), so the state is returned unchanged. -/
def getOp (s : KvStore) (k : Str) : Except KvError (Option Str) × KvStore :=
  match idxLookup k s.index with
  | none => (Except.ok none, s)
  | some off =>
    match decode (readLineRaw s.file off) with
    | none => (Except.error KvError.SerdeJsonError, s)
    | some (Op.Set k2 v) =>
      if k2 = k then (Except.ok (some v), s) else (Except.error KvError.InvalidKeyError, s)
    | some _ => (Except.error KvError.InvalidCommandError, s)

/-- `BufRead::lines`: split the file into its newline-terminated lines,
newline stripped; a final unterminated line still counts. -/
def lines (f : Str) : List Str :=
  if hf : f = [] then []
  else
    let l := f.takeWhile (fun c => c != '\n')
    let r := f.drop l.length
    if hr : r = [] then [l]
    else l :: lines r.tail
termination_by f.length
decreasing_by
  simp only [List.length_tail, List.length_drop]
  have h1 : l.length ≤ f.length := (List.takeWhile_sublist _).length_le
  have h2 : f.length ≠ 0 := fun h => hf (List.eq_nil_of_length_eq_zero h)
  have h3 : r.length ≠ 0 := fun h => hr (List.eq_nil_of_length_eq_zero h)
  have h4 : r.length = f.length - l.length := List.length_drop _ _
  omega

/-- The loop body of `KvStore::construct_index` (src/lib.rs lines
167-188): fold the decoded lines into the index, advancing the offset
by the line length plus one for its newline; a line serde_json cannot
parse aborts the whole replay with the error. -/
def replayLines : List Str → Nat → Index → Except KvError Index
  | [], _, idx => Except.ok idx
  | l :: rest, off, idx =>
    match decode l with
    | none => Except.error KvError.SerdeJsonError
    | some (Op.Set k _) => replayLines rest (off + l.length + 1) (idxInsert k off idx)
    | some (Op.Rm k) => replayLines rest (off + l.length + 1) (idxRemove k idx)
    | some (Op.Get _) => replayLines rest (off + l.length + 1) idx

/-- `KvStore::open` (src/lib.rs lines 72-87) on a directory whose log
file currently holds `disk` (an absent file is the empty contents, as
`open` creates it): the store starts with an empty index and
`log_size = 0` — the counter is never initialized from the file — and
`construct_index` replays every line. -/
def openStore (disk : Str) : Except KvError KvStore :=
  match replayLines (lines disk) 0 [] with
  | Except.ok idx => Except.ok { index := idx, file := disk, log_size := 0 }
  | Except.error e => Except.error e

/-- The store produced by `open` on a fresh directory. -/
def emptyStore : KvStore := { index := [], file := [], log_size := 0 }

/-! ### Codec lemmas -/

theorem hexDigit_round : ∀ m, m < 16 → parseHexDigit (hexDigit m) = some m := by decide

theorem hexDigit_ne_nl : ∀ m, m < 16 → hexDigit m ≠ '\n' := by decide

theorem newline_not_mem_escChar (c : Char) : '\n' ∉ escChar c := by
  unfold escChar
  split_ifs with h1 h2 h3 h4 h5 h6 h7 h8
  · decide
  · decide
  · decide
  · decide
  · decide
  · decide
  · decide
  · have d1 : c.toNat / 16 < 16 := by omega
    have d2 : c.toNat % 16 < 16 := by omega
    simp only [List.mem_cons, List.not_mem_nil, or_false]
    push_neg
    refine ⟨by decide, by decide, by decide, by decide, ?_, ?_⟩
    · exact fun h => hexDigit_ne_nl _ d1 h.symm
    · exact fun h => hexDigit_ne_nl _ d2 h.symm
  · simp only [List.mem_singleton]
    intro h
    cases h
    exact h3 (by decide)

theorem newline_not_mem_escape (s : Str) : '\n' ∉ escape s := by
  induction s with
  | nil => simp [escape]
  | cons c s ih =>
    simp only [escape, List.map_cons, List.flatten_cons]
    intro hm
    rcases List.mem_append.mp hm with h | h
    · exact newline_not_mem_escChar c h
    · exact ih h

theorem newline_not_mem_quoteStr (s : Str) : '\n' ∉ quoteStr s := by
  simp only [quoteStr, List.mem_cons, List.mem_append, List.mem_singleton]
  push_neg
  exact ⟨by decide, newline_not_mem_escape s, by decide⟩

theorem not_mem_append2 {α : Type} {a : α} {l1 l2 : List α}
    (h1 : a ∉ l1) (h2 : a ∉ l2) : a ∉ l1 ++ l2 := by
  simp [h1, h2]

theorem newline_not_mem_encode (r : Op) : '\n' ∉ encode r := by
  cases r with
  | Set k v =>
    have hrepr : encode (Op.Set k v) =
        [lbrace, '"', 'S', 'e', 't', '"', ':', '['] ++
          (quoteStr k ++ ([','] ++ (quoteStr v ++ [']', rbrace]))) := by
      simp [encode]
    rw [hrepr]
    exact not_mem_append2 (by decide)
      (not_mem_append2 (newline_not_mem_quoteStr k)
        (not_mem_append2 (by decide)
          (not_mem_append2 (newline_not_mem_quoteStr v) (by decide))))
  | Rm k =>
    have hrepr : encode (Op.Rm k) =
        [lbrace, '"', 'R', 'm', '"', ':'] ++ (quoteStr k ++ [rbrace]) := by
      simp [encode]
    rw [hrepr]
    exact not_mem_append2 (by decide)
      (not_mem_append2 (newline_not_mem_quoteStr k) (by decide))
  | Get k =>
    have hrepr : encode (Op.Get k) =
        [lbrace, '"', 'G', 'e', 't', '"', ':'] ++ (quoteStr k ++ [rbrace]) := by
      simp [encode]
    rw [hrepr]
    exact not_mem_append2 (by decide)
      (not_mem_append2 (newline_not_mem_quoteStr k) (by decide))

/-- The body parser undoes the escaper: parsing `escape s` followed by a
closing quote recovers `s` exactly and stops at the quote. -/
theorem parseStringBody_escape (s t : Str) :
    parseStringBody (escape s ++ '"' :: t) = some (s, t) := by
  induction s with
  | nil =>
    rw [show escape [] = [] from rfl, List.nil_append, parseStringBody.eq_def]
    simp
  | cons c s ih =>
    have hesc : escape (c :: s) = escChar c ++ escape s := by
      simp [escape]
    rw [hesc, List.append_assoc]
    by_cases h1 : c = '"'
    · subst h1
      rw [show escChar '"' = ['\\', '"'] from rfl, List.cons_append, List.cons_append,
        List.nil_append, parseStringBody.eq_def]
      simp [unescSimple, ih]
    by_cases h2 : c = '\\'
    · subst h2
      rw [show escChar '\\' = ['\\', '\\'] from rfl, List.cons_append, List.cons_append,
        List.nil_append, parseStringBody.eq_def]
      simp [unescSimple, ih]
    by_cases h3 : c.toNat < 32
    · by_cases h4 : c = Char.ofNat 8
      · subst h4
        rw [show escChar (Char.ofNat 8) = ['\\', 'b'] from rfl, List.cons_append,
          List.cons_append, List.nil_append, parseStringBody.eq_def]
        simp [unescSimple, ih]
      by_cases h5 : c = '\t'
      · subst h5
        rw [show escChar '\t' = ['\\', 't'] from rfl, List.cons_append, List.cons_append,
          List.nil_append, parseStringBody.eq_def]
        simp [unescSimple, ih]
      by_cases h6 : c = '\n'
      · subst h6
        rw [show escChar '\n' = ['\\', 'n'] from rfl, List.cons_append, List.cons_append,
          List.nil_append, parseStringBody.eq_def]
        simp [unescSimple, ih]
      by_cases h7 : c = Char.ofNat 12
      · subst h7
        rw [show escChar (Char.ofNat 12) = ['\\', 'f'] from rfl, List.cons_append,
          List.cons_append, List.nil_append, parseStringBody.eq_def]
        simp [unescSimple, ih]
      by_cases h8 : c = '\r'
      · subst h8
        rw [show escChar '\r' = ['\\', 'r'] from rfl, List.cons_append, List.cons_append,
          List.nil_append, parseStringBody.eq_def]
        simp [unescSimple, ih]
      · have hesc2 : escChar c =
            ['\\', 'u', '0', '0', hexDigit (c.toNat / 16), hexDigit (c.toNat % 16)] := by
          simp [escChar, h1, h2, h3, h4, h5, h6, h7, h8]
        rw [hesc2]
        have hd1 : parseHexDigit (hexDigit (c.toNat / 16)) = some (c.toNat / 16) :=
          hexDigit_round _ (by omega)
        have hd2 : parseHexDigit (hexDigit (c.toNat % 16)) = some (c.toNat % 16) :=
          hexDigit_round _ (by omega)
        have h0 : parseHexDigit '0' = some 0 := by decide
        have hns : ¬(55296 ≤ c.toNat ∧ c.toNat ≤ 57343) := by omega
        have hval : 16 * (c.toNat / 16) + c.toNat % 16 = c.toNat := by omega
        simp only [List.cons_append, List.nil_append]
        rw [parseStringBody.eq_def]
        simp only [parseHex4, h0, hd1, hd2, Option.pure_def, Option.bind_some]
        simp [hval, hns, ih, Char.ofNat_toNat]
    · have hesc2 : escChar c = [c] := by
        simp [escChar, h1, h2, h3]
      rw [hesc2, List.cons_append, List.nil_append, parseStringBody.eq_def]
      simp [h1, h2, h3, ih]

theorem skipWs_cons_of (c : Char) (s : Str) (h : isWs c = false) :
    skipWs (c :: s) = c :: s := by
  simp [skipWs, h]

theorem parseQuoted_quoteStr (k t : Str) : parseQuoted (quoteStr k ++ t) = some (k, t) := by
  simp only [quoteStr, List.cons_append, List.append_assoc, List.singleton_append]
  simp [parseQuoted, parseStringBody_escape]

theorem parseQuoted_skipWs_quoteStr (k t : Str) :
    parseQuoted (skipWs (quoteStr k ++ t)) = some (k, t) := by
  rw [show quoteStr k ++ t = '"' :: (escape k ++ ['"'] ++ t) by simp [quoteStr]]
  rw [skipWs_cons_of _ _ (by decide)]
  rw [show ('"' : Char) :: (escape k ++ ['"'] ++ t) = quoteStr k ++ t by simp [quoteStr]]
  exact parseQuoted_quoteStr k t

theorem parseOp_encode (r : Op) (t : Str) : parseOp (encode r ++ t) = some (r, t) := by
  have w1 : ∀ s : Str, skipWs (':' :: s) = ':' :: s := fun s => skipWs_cons_of _ _ (by decide)
  have w2 : ∀ s : Str, skipWs ('[' :: s) = '[' :: s := fun s => skipWs_cons_of _ _ (by decide)
  have w3 : ∀ s : Str, skipWs (',' :: s) = ',' :: s := fun s => skipWs_cons_of _ _ (by decide)
  have w4 : ∀ s : Str, skipWs (']' :: s) = ']' :: s := fun s => skipWs_cons_of _ _ (by decide)
  have w5 : ∀ s : Str, skipWs (rbrace :: s) = rbrace :: s := fun s =>
    skipWs_cons_of _ _ (by decide)
  cases r with
  | Set k v =>
    have hq : quoteStr ['S', 'e', 't'] = ['"', 'S', 'e', 't', '"'] := by decide
    have hrepr : encode (Op.Set k v) ++ t =
        lbrace :: (quoteStr ['S', 'e', 't'] ++ (':' :: ('[' :: (quoteStr k ++
          (',' :: (quoteStr v ++ (']' :: (rbrace :: t)))))))) := by
      rw [hq]
      simp [encode]
    rw [hrepr]
    simp [parseOp, parseQuoted_skipWs_quoteStr, w1, w2, w3, w4, w5]
  | Rm k =>
    have hq : quoteStr ['R', 'm'] = ['"', 'R', 'm', '"'] := by decide
    have hrepr : encode (Op.Rm k) ++ t =
        lbrace :: (quoteStr ['R', 'm'] ++ (':' :: (quoteStr k ++ (rbrace :: t)))) := by
      rw [hq]
      simp [encode]
    rw [hrepr]
    simp [parseOp, parseQuoted_skipWs_quoteStr, w1, w5]
  | Get k =>
    have hq : quoteStr ['G', 'e', 't'] = ['"', 'G', 'e', 't', '"'] := by decide
    have hrepr : encode (Op.Get k) ++ t =
        lbrace :: (quoteStr ['G', 'e', 't'] ++ (':' :: (quoteStr k ++ (rbrace :: t)))) := by
      rw [hq]
      simp [encode]
    rw [hrepr]
    simp [parseOp, parseQuoted_skipWs_quoteStr, w1, w5]

theorem skipWs_encode (r : Op) (t : Str) : skipWs (encode r ++ t) = encode r ++ t := by
  have wlb : ∀ s : Str, skipWs (lbrace :: s) = lbrace :: s := fun s =>
    skipWs_cons_of _ _ (by decide)
  cases r <;> simp [encode, wlb]

theorem decode_encode (r : Op) : decode (encode r) = some r := by
  have h := parseOp_encode r []
  rw [List.append_nil] at h
  have h2 : skipWs (encode r) = encode r := by
    have := skipWs_encode r []
    simpa using this
  unfold decode
  rw [h2, h]
  simp [skipWs]

theorem decode_encode_nl (r : Op) : decode (encode r ++ ['\n']) = some r := by
  unfold decode
  rw [skipWs_encode, parseOp_encode]
  simp [skipWs, show isWs '\n' = true from by decide]

/-! ### Index and state lemmas -/

theorem idxLookup_insert_self (k : Str) (off : Nat) (idx : Index) :
    idxLookup k (idxInsert k off idx) = some off := by
  induction idx with
  | nil => simp [idxInsert, idxLookup]
  | cons kv rest ih =>
    obtain ⟨k2, o⟩ := kv
    simp only [idxInsert]
    by_cases h1 : strLt k k2 = true
    · simp [h1, idxLookup]
    · by_cases h2 : k = k2
      · subst h2
        simp [h1, idxLookup]
      · simp [h1, h2, idxLookup, ih]

theorem idxLookup_remove_self (k : Str) (idx : Index) :
    idxLookup k (idxRemove k idx) = none := by
  induction idx with
  | nil => simp [idxRemove, idxLookup]
  | cons kv rest ih =>
    obtain ⟨k2, o⟩ := kv
    by_cases h : k2 = k
    · simpa [idxRemove, List.filter_cons, h] using ih
    · simpa [idxRemove, List.filter_cons, h, idxLookup, Ne.symm h] using ih

theorem compact_index (s : KvStore) : (compact s).index = s.index := by
  unfold compact
  split <;> rfl

theorem set_index (s : KvStore) (k v : Str) :
    (set s k v).index = idxInsert k s.file.length s.index := by
  unfold set setOp
  simp [compact_index]

/-! ### Claim theorems, first batch -/

/-- C7: for every Record (a `Set` of any key and value, a `Rm` of any
key, and even the unused `Get` variant), deserializing its serialization
yields the record back, and the serialization contains no newline, so
the appended line's only newline is its terminator. -/
theorem record_codec_roundtrip (r : Op) :
    decode (encode r) = some r ∧ '\n' ∉ encode r :=
  ⟨decode_encode r, newline_not_mem_encode r⟩

/-- C5: for every engine state, `set k v` followed by `remove k` makes
`get k` return `None`; and `remove` of a key absent from the index fails
with `KeyNotFoundError`, appending nothing and changing nothing. -/
theorem remove_semantics (s : KvStore) (k v : Str) :
    (getOp ((removeOp (set s k v) k).2) k).1 = Except.ok none ∧
    (idxLookup k s.index = none →
      removeOp s k = (Except.error KvError.KeyNotFoundError, s)) := by
  constructor
  · have h1 : idxLookup k (set s k v).index = some s.file.length := by
      rw [set_index]
      exact idxLookup_insert_self k s.file.length s.index
    unfold removeOp
    rw [h1]
    have h2 : ∀ st : KvStore, st.index = idxRemove k (set s k v).index →
        (getOp st k).1 = Except.ok none := by
      intro st hst
      unfold getOp
      rw [hst, idxLookup_remove_self]
    exact h2 _ (compact_index _)
  · intro h
    unfold removeOp
    rw [h]

/-- C5 witness at a concrete input. -/
theorem remove_semantics_witness :
    (getOp ((removeOp (set emptyStore ['a'] ['1']) ['a']).2) ['a']).1 = Except.ok none ∧
    removeOp emptyStore ['z'] = (Except.error KvError.KeyNotFoundError, emptyStore) :=
  ⟨(remove_semantics emptyStore ['a'] ['1']).1,
    (remove_semantics emptyStore ['z'] ['9']).2 (by rfl)⟩

/-- C8: when the append performed by `set` fails, the call returns the
I/O error and the index is exactly the index from before the call (the
insertion on line 106 is only reached after the `?` on the write). -/
theorem set_fail_index_unchanged (s : KvStore) (k v : Str) :
    (setOp s k v false).1 = Except.error KvError.IoError ∧
    (setOp s k v false).2.index = s.index := by
  constructor <;> rfl

/-- C10: `get` takes the store by shared reference and performs only
reads, so the whole state — index, file contents and size counter — is
unchanged whatever branch the call takes. -/
theorem get_leaves_state (s : KvStore) (k : Str) : (getOp s k).2 = s := by
  unfold getOp
  repeat' split
  all_goals rfl

/-! ### Operation step equations -/

theorem set_eq (s : KvStore) (k v : Str) :
    set s k v = compact
      { index := idxInsert k s.file.length s.index,
        file := s.file ++ (encode (Op.Set k v) ++ ['\n']),
        log_size := s.log_size + (encode (Op.Set k v) ++ ['\n']).length } := rfl

theorem removeOp_some (s : KvStore) (k : Str) (off : Nat)
    (h : idxLookup k s.index = some off) :
    removeOp s k = (Except.ok (), compact
      { index := idxRemove k s.index,
        file := s.file ++ (encode (Op.Rm k) ++ ['\n']),
        log_size := (encode (Op.Rm k) ++ ['\n']).length }) := by
  unfold removeOp
  rw [h]

theorem compact_no_fire (s : KvStore) (h : s.log_size < THRESHOLD) : compact s = s := by
  unfold compact
  rw [if_neg (by omega)]

theorem compact_fire (s : KvStore) (h : THRESHOLD ≤ s.log_size) :
    compact s =
      { index := s.index,
        file := (s.index.map (fun kv => readLineRaw s.file kv.2)).flatten,
        log_size := ((s.index.map (fun kv => readLineRaw s.file kv.2)).flatten).length } := by
  unfold compact
  rw [if_pos h]

theorem lines_nil : lines [] = [] := by
  rw [lines.eq_def]
  simp

theorem openStore_nil : openStore [] = Except.ok emptyStore := by
  unfold openStore
  rw [lines_nil]
  rfl

/-! ### C6: the byte-size counter -/

/-- The store reached by `open` on an empty directory followed by
`set a 1`, `set b 2`, `remove a`: the three appended records measure
18, 18 and 11 bytes, all far below the compaction threshold. -/
def c6state : KvStore :=
  (removeOp (set (set emptyStore ['a'] ['1']) ['b'] ['2']) ['a']).2

/-- C6 counterexample: after the three appends the log was never
rewritten and holds 47 cumulative bytes, but the counter holds 11 —
`remove` overwrote it with just the tombstone's length instead of
accumulating. -/
theorem log_size_counterexample :
    c6state.file.length = 47 ∧ c6state.log_size = 11 ∧ c6state.log_size ≠ 47 := by
  refine ⟨?_, ?_, ?_⟩ <;> decide

/-- C6 amended: the code's actual accounting policy.  `open` always
starts the counter at 0, even over a non-empty log; a `set` below the
threshold adds the appended line's length; a `remove` of a present key
below the threshold overwrites the counter with just the tombstone
line's length, discarding the previous value; a firing compaction
resets it to the length of the rewritten content. -/
theorem log_size_policy (s : KvStore) (k v d : Str) (st : KvStore) :
    (openStore d = Except.ok st → st.log_size = 0) ∧
    (s.log_size + (encode (Op.Set k v)).length + 1 < THRESHOLD →
      (set s k v).log_size = s.log_size + (encode (Op.Set k v)).length + 1) ∧
    (idxLookup k s.index ≠ none → (encode (Op.Rm k)).length + 1 < THRESHOLD →
      (removeOp s k).2.log_size = (encode (Op.Rm k)).length + 1) ∧
    (THRESHOLD ≤ s.log_size → (compact s).log_size = (compact s).file.length) := by
  refine ⟨?_, ?_, ?_, ?_⟩
  · intro h
    unfold openStore at h
    cases heq : replayLines (lines d) 0 [] with
    | ok idx =>
      rw [heq] at h
      cases h
      rfl
    | error e =>
      rw [heq] at h
      cases h
  · intro h
    rw [set_eq, compact_no_fire _ (by simp; omega)]
    simp
    omega
  · intro hk h
    cases heq : idxLookup k s.index with
    | none => exact absurd heq hk
    | some off =>
      rw [removeOp_some s k off heq]
      rw [compact_no_fire _ (by simp; omega)]
      simp
  · intro h
    unfold compact
    rw [if_pos h]

/-- C6 amended-claim witness at concrete inputs. -/
theorem log_size_policy_witness :
    emptyStore.log_size = 0 ∧
    (set emptyStore ['a'] ['1']).log_size = 18 ∧
    (removeOp (set emptyStore ['a'] ['1']) ['a']).2.log_size = 11 ∧
    (compact { index := [], file := [], log_size := THRESHOLD }).log_size =
      (compact { index := [], file := [], log_size := THRESHOLD }).file.length := by
  refine ⟨(log_size_policy emptyStore ['a'] ['1'] [] emptyStore).1 openStore_nil, ?_, ?_,
    (log_size_policy { index := [], file := [], log_size := THRESHOLD } ['a'] ['1'] []
      emptyStore).2.2.2 (Nat.le_refl _)⟩
  · rw [(log_size_policy emptyStore ['a'] ['1'] [] emptyStore).2.1 (by decide)]
    decide
  · rw [(log_size_policy (set emptyStore ['a'] ['1']) ['a'] ['1'] []
      emptyStore).2.2.1 (by decide) (by decide)]
    decide

/-! ### Reading lines at offsets -/

theorem drop_append_ge {α : Type} (l1 l2 : List α) (n : Nat) (h : l1.length ≤ n) :
    (l1 ++ l2).drop n = l2.drop (n - l1.length) := by
  induction l1 generalizing n with
  | nil => simp
  | cons a l1 ih =>
    cases n with
    | zero => simp at h
    | succ n =>
      simp only [List.cons_append, List.drop_succ_cons, List.length_cons]
      rw [ih n (by simpa using h)]
      simp [Nat.succ_sub_succ]

theorem drop_replicate {α : Type} (a : α) (n m : Nat) :
    (List.replicate n a).drop m = List.replicate (n - m) a := by
  induction n generalizing m with
  | zero => simp
  | succ n ih =>
    cases m with
    | zero => simp
    | succ m =>
      simp only [List.replicate_succ, List.drop_succ_cons, ih, Nat.succ_sub_succ]

theorem takeWhile_ne_nl (body t : Str) (h : '\n' ∉ body) :
    (body ++ '\n' :: t).takeWhile (fun c => c != '\n') = body := by
  rw [List.takeWhile_append_of_pos]
  · simp
  · intro a ha
    simp only [bne_iff_ne, ne_eq]
    intro he
    exact h (he ▸ ha)

theorem readLine0_line (body t : Str) (h : '\n' ∉ body) :
    readLine0 (body ++ '\n' :: t) = body ++ ['\n'] := by
  unfold readLine0
  rw [takeWhile_ne_nl body t h, if_pos (by simp)]

theorem readLineRaw_encode_zero (r : Op) (t : Str) :
    readLineRaw ((encode r ++ ['\n']) ++ t) 0 = encode r ++ ['\n'] := by
  unfold readLineRaw
  rw [List.drop_zero, List.append_assoc, List.singleton_append]
  exact readLine0_line _ _ (newline_not_mem_encode r)

theorem readLineRaw_at_left (pre rest : Str) :
    readLineRaw (pre ++ rest) pre.length = readLine0 rest := by
  unfold readLineRaw
  rw [List.drop_left]

/-! ### A reachable state corrupted by compaction -/

/-- The size of the large value: one record holding it immediately
reaches the `1024*1024` compaction threshold. -/
def bigN : Nat := 1048576

/-- A value of `bigN` times the letter x. -/
def bigV : Str := List.replicate bigN 'x'

/-- The serialized line of `Set("a","1")`. -/
def lineA : Str := encode (Op.Set ['a'] ['1']) ++ ['\n']

/-- The serialized line of `Set("b", bigV)`. -/
def lineB : Str := encode (Op.Set ['b'] bigV) ++ ['\n']

/-- The serialized line of `Set("c","3")`. -/
def lineC : Str := encode (Op.Set ['c'] ['3']) ++ ['\n']

/-- The 13 characters of `lineB` before the value characters. -/
def bPre : Str := [lbrace, '"', 'S', 'e', 't', '"', ':', '[', '"', 'b', '"', ',', '"']

/-- The 4 characters of `lineB` after the value characters. -/
def bSuf : Str := ['"', ']', rbrace, '\n']

theorem escape_replicate_x (n : Nat) :
    escape (List.replicate n 'x') = List.replicate n 'x' := by
  induction n with
  | zero => rfl
  | succ n ih =>
    simp only [List.replicate_succ, escape, List.map_cons, List.flatten_cons]
    rw [show escChar 'x' = ['x'] from by decide]
    simp only [List.singleton_append, List.cons.injEq, true_and]
    exact ih

theorem escape_bigV : escape bigV = bigV := by
  simp only [bigV]
  exact escape_replicate_x bigN

theorem bigV_len : bigV.length = bigN := by simp [bigV]

theorem encode_set_b (v : Str) :
    encode (Op.Set ['b'] v) ++ ['\n'] = bPre ++ (escape v ++ bSuf) := by
  simp only [encode, quoteStr, bPre, bSuf]
  rw [show escape ['b'] = ['b'] from by decide]
  simp only [List.cons_append, List.nil_append, List.append_assoc,
    List.singleton_append]

theorem lineB_repr : lineB = bPre ++ (bigV ++ bSuf) := by
  have h := encode_set_b bigV
  rw [escape_bigV] at h
  exact h

theorem len_pre_suf (v l : Str) (h : l = bPre ++ (v ++ bSuf)) : l.length = v.length + 17 := by
  rw [h]
  simp only [List.length_append, bPre, bSuf, List.length_cons, List.length_nil]
  omega

theorem lineB_len : lineB.length = bigN + 17 := by
  have h := len_pre_suf bigV lineB lineB_repr
  rw [bigV_len] at h
  exact h

theorem lineA_len : lineA.length = 18 := by decide

theorem lineC_len : lineC.length = 18 := by decide

theorem drop_append_le {α : Type} (l1 l2 : List α) (n : Nat) (h : n ≤ l1.length) :
    (l1 ++ l2).drop n = l1.drop n ++ l2 := by
  induction l1 generalizing n with
  | nil =>
    have hn : n = 0 := Nat.le_zero.mp (by simpa using h)
    subst hn
    simp
  | cons a l1 ih =>
    cases n with
    | zero => simp
    | succ n =>
      simp only [List.cons_append, List.drop_succ_cons]
      exact ih n (by simpa using h)

theorem readLine0_encode (r : Op) : readLine0 (encode r ++ ['\n']) = encode r ++ ['\n'] :=
  readLine0_line (encode r) [] (newline_not_mem_encode r)

theorem readLineRaw_line_zero (r : Op) :
    readLineRaw (encode r ++ ['\n']) 0 = encode r ++ ['\n'] := by
  unfold readLineRaw
  rw [List.drop_zero]
  exact readLine0_encode r

/-- The engine after `open` on an empty directory and `set b bigV`: the
first set itself crossed the threshold, but compaction of a one-key log
rewrites it identically, so the state is still healthy. -/
def s1state : KvStore := { index := [(['b'], 0)], file := lineB, log_size := bigN + 17 }

theorem thr_le_17 : THRESHOLD ≤ bigN + 17 := by
  unfold THRESHOLD bigN
  omega

theorem step1 : set emptyStore ['b'] bigV = s1state := by
  rw [set_eq]
  rw [show encode (Op.Set ['b'] bigV) ++ ['\n'] = lineB from rfl]
  rw [show idxInsert ['b'] (List.length emptyStore.file) emptyStore.index =
    [(['b'], 0)] from rfl]
  rw [show emptyStore.file ++ lineB = lineB from rfl]
  rw [show emptyStore.log_size = (0 : Nat) from rfl, Nat.zero_add, lineB_len]
  rw [compact_fire _ thr_le_17]
  rw [show ([(['b'], 0)] : Index).map
      (fun kv => readLineRaw lineB kv.2) = [readLineRaw lineB 0] from rfl]
  rw [show readLineRaw lineB 0 = lineB from readLineRaw_line_zero (Op.Set ['b'] bigV)]
  rw [show List.flatten [lineB] = lineB ++ [] from rfl, List.append_nil, lineB_len]
  rfl

/-- The engine state inside the second `set`, just before its
`self.compact()` call on src/lib.rs line 109: both records are on disk
and the index points at their true offsets. -/
def sMid : KvStore :=
  { index := [(['a'], bigN + 17), (['b'], 0)], file := lineB ++ lineA,
    log_size := bigN + 35 }

/-- The engine state after the second `set` returns: compaction rewrote
the log in ascending key order (`lineA` before `lineB`) but left the
index offsets pointing into the old layout. -/
def s2state : KvStore :=
  { index := [(['a'], bigN + 17), (['b'], 0)], file := lineA ++ lineB,
    log_size := bigN + 35 }

theorem thr_le_35 : THRESHOLD ≤ bigN + 35 := by
  unfold THRESHOLD bigN
  omega

theorem idxInsert_a_b (x : Nat) :
    idxInsert ['a'] x [(['b'], 0)] = [(['a'], x), (['b'], 0)] := by
  simp [idxInsert, show strLt ['a'] ['b'] = true from by decide]

theorem step2a : set s1state ['a'] ['1'] = compact sMid := by
  rw [set_eq]
  rw [show encode (Op.Set ['a'] ['1']) ++ ['\n'] = lineA from rfl]
  rw [show s1state.file = lineB from rfl]
  rw [show s1state.index = [(['b'], 0)] from rfl]
  rw [show s1state.log_size = bigN + 17 from rfl]
  rw [lineB_len, idxInsert_a_b, lineA_len]
  rw [show bigN + 17 + 18 = bigN + 35 from by unfold bigN; omega]
  rfl

theorem step2b : compact sMid = s2state := by
  rw [compact_fire sMid thr_le_35]
  rw [show sMid.index = [(['a'], bigN + 17), (['b'], 0)] from rfl]
  rw [show sMid.file = lineB ++ lineA from rfl]
  rw [show ([(['a'], bigN + 17), (['b'], 0)] : Index).map
      (fun kv => readLineRaw (lineB ++ lineA) kv.2) =
    [readLineRaw (lineB ++ lineA) (bigN + 17), readLineRaw (lineB ++ lineA) 0] from rfl]
  rw [show readLineRaw (lineB ++ lineA) (bigN + 17) = readLine0 lineA from by
    rw [← lineB_len]; exact readLineRaw_at_left lineB lineA]
  rw [show readLine0 lineA = lineA from readLine0_encode (Op.Set ['a'] ['1'])]
  rw [show readLineRaw (lineB ++ lineA) 0 = lineB from
    readLineRaw_encode_zero (Op.Set ['b'] bigV) lineA]
  rw [show List.flatten [lineA, lineB] = lineA ++ (lineB ++ []) from rfl, List.append_nil]
  rw [List.length_append, lineA_len, lineB_len]
  rw [show 18 + (bigN + 17) = bigN + 35 from by unfold bigN; omega]
  rfl

theorem step2 : set s1state ['a'] ['1'] = s2state := step2a.trans step2b

/-- The 17 characters that a read at the stale offset `bigN + 17` finds
in the rewritten log: the tail of the big value and the closing of its
record. -/
def gBody : Str := List.replicate 14 'x' ++ ['"', ']', rbrace]

/-- The garbage line, newline included. -/
def gLine : Str := gBody ++ ['\n']

theorem idxLookup_b (x : Nat) : idxLookup ['b'] [(['a'], x), (['b'], 0)] = some 0 := by
  simp [idxLookup, show (['b'] : Str) ≠ ['a'] from by decide]

theorem idxLookup_a (x : Nat) : idxLookup ['a'] [(['a'], x), (['b'], 0)] = some x := by
  simp [idxLookup]

theorem drop_lineB_garbage : lineB.drop (bigN - 1) = List.replicate 14 'x' ++ bSuf := by
  rw [lineB_repr]
  rw [drop_append_ge bPre (bigV ++ bSuf) (bigN - 1)
    (by rw [show List.length bPre = 13 from rfl]; unfold bigN; omega)]
  rw [show List.length bPre = 13 from rfl]
  rw [show bigN - 1 - 13 = bigN - 14 from by unfold bigN; omega]
  rw [drop_append_le bigV bSuf (bigN - 14) (by rw [bigV_len]; unfold bigN; omega)]
  rw [show bigV = List.replicate bigN 'x' from rfl, drop_replicate]
  rw [show bigN - (bigN - 14) = 14 from by unfold bigN; omega]

theorem read_garbage : readLineRaw (lineA ++ lineB) (bigN + 17) = gLine := by
  unfold readLineRaw
  rw [drop_append_ge lineA lineB (bigN + 17) (by rw [lineA_len]; unfold bigN; omega)]
  rw [lineA_len, show bigN + 17 - 18 = bigN - 1 from by unfold bigN; omega]
  rw [drop_lineB_garbage]
  rw [show List.replicate 14 'x' ++ bSuf = gBody ++ '\n' :: [] from by decide]
  rw [readLine0_line gBody [] (by decide)]
  rfl

theorem decode_gLine : decode gLine = none := by decide

theorem getOp_set_hit (s : KvStore) (k v : Str) (off : Nat)
    (hl : idxLookup k s.index = some off)
    (hd : decode (readLineRaw s.file off) = some (Op.Set k v)) :
    (getOp s k).1 = Except.ok (some v) := by
  unfold getOp
  rw [hl]
  simp [hd]

theorem getOp_set_miss (s : KvStore) (k k2 v : Str) (off : Nat) (hk : ¬(k2 = k))
    (hl : idxLookup k s.index = some off)
    (hd : decode (readLineRaw s.file off) = some (Op.Set k2 v)) :
    (getOp s k).1 = Except.error KvError.InvalidKeyError := by
  unfold getOp
  rw [hl]
  simp [hd, hk]

theorem getOp_garbage (s : KvStore) (k : Str) (off : Nat)
    (hl : idxLookup k s.index = some off)
    (hd : decode (readLineRaw s.file off) = none) :
    (getOp s k).1 = Except.error KvError.SerdeJsonError := by
  unfold getOp
  rw [hl]
  simp [hd]

theorem get_sMid_b : (getOp sMid ['b']).1 = Except.ok (some bigV) := by
  refine getOp_set_hit sMid ['b'] bigV 0 ?_ ?_
  · rw [show sMid.index = [(['a'], bigN + 17), (['b'], 0)] from rfl]
    exact idxLookup_b (bigN + 17)
  · rw [show sMid.file = lineB ++ lineA from rfl]
    rw [show readLineRaw (lineB ++ lineA) 0 = lineB from
      readLineRaw_encode_zero (Op.Set ['b'] bigV) lineA]
    exact decode_encode_nl (Op.Set ['b'] bigV)

theorem get_s2state_b : (getOp s2state ['b']).1 = Except.error KvError.InvalidKeyError := by
  refine getOp_set_miss s2state ['b'] ['a'] ['1'] 0 (by decide) ?_ ?_
  · rw [show s2state.index = [(['a'], bigN + 17), (['b'], 0)] from rfl]
    exact idxLookup_b (bigN + 17)
  · rw [show s2state.file = lineA ++ lineB from rfl]
    rw [show readLineRaw (lineA ++ lineB) 0 = lineA from
      readLineRaw_encode_zero (Op.Set ['a'] ['1']) lineB]
    exact decode_encode_nl (Op.Set ['a'] ['1'])

theorem get_s2state_a : (getOp s2state ['a']).1 = Except.error KvError.SerdeJsonError := by
  refine getOp_garbage s2state ['a'] (bigN + 17) ?_ ?_
  · rw [show s2state.index = [(['a'], bigN + 17), (['b'], 0)] from rfl]
    exact idxLookup_a (bigN + 17)
  · rw [show s2state.file = lineA ++ lineB from rfl, read_garbage]
    exact decode_gLine

theorem lines_cons (body rest : Str) (h : '\n' ∉ body) :
    lines (body ++ '\n' :: rest) = body :: lines rest := by
  rw [lines.eq_def]
  rw [dif_neg (show ¬(body ++ '\n' :: rest = []) from by simp)]
  simp only [takeWhile_ne_nl body rest h, List.drop_left]
  rw [dif_neg (show ¬(('\n' :: rest : Str) = []) from by simp)]
  simp only [List.tail_cons]

theorem lines_lineB : lines lineB = [encode (Op.Set ['b'] bigV)] := by
  rw [show lineB = encode (Op.Set ['b'] bigV) ++ '\n' :: [] from rfl]
  rw [lines_cons _ _ (newline_not_mem_encode _), lines_nil]

theorem lines_file2 : lines (lineA ++ lineB) =
    [encode (Op.Set ['a'] ['1']), encode (Op.Set ['b'] bigV)] := by
  rw [show lineA ++ lineB = encode (Op.Set ['a'] ['1']) ++ '\n' :: lineB from by
    rw [show lineA = encode (Op.Set ['a'] ['1']) ++ ['\n'] from rfl, List.append_assoc]
    rfl]
  rw [lines_cons _ _ (newline_not_mem_encode _), lines_lineB]

/-- The engine obtained by re-opening the directory holding the
corrupted `s2state` log: replay assigns the true offsets. -/
def reopenState : KvStore :=
  { index := [(['a'], 0), (['b'], 18)], file := lineA ++ lineB, log_size := 0 }

theorem idxInsert_b_after_a (x y : Nat) :
    idxInsert ['b'] y [(['a'], x)] = [(['a'], x), (['b'], y)] := by
  simp [idxInsert, show strLt ['b'] ['a'] = false from by decide,
    show (['b'] : Str) ≠ ['a'] from by decide]

theorem replay_two_sym (k1 v1 k2 v2 : Str) :
    replayLines [encode (Op.Set k1 v1), encode (Op.Set k2 v2)] 0 [] =
      Except.ok (idxInsert k2 (0 + (encode (Op.Set k1 v1)).length + 1)
        (idxInsert k1 0 [])) := by
  simp only [replayLines, decode_encode]

theorem replay_two : replayLines [encode (Op.Set ['a'] ['1']), encode (Op.Set ['b'] bigV)]
    0 [] = Except.ok [(['a'], 0), (['b'], 18)] := by
  rw [replay_two_sym]
  rw [show (0 + (encode (Op.Set ['a'] ['1'])).length + 1 : Nat) = 18 from by decide]
  rw [show idxInsert ['a'] 0 ([] : Index) = [(['a'], 0)] from rfl]
  rw [idxInsert_b_after_a]

theorem openStore_ok (d : Str) (idx : Index)
    (h : replayLines (lines d) 0 [] = Except.ok idx) :
    openStore d = Except.ok { index := idx, file := d, log_size := 0 } := by
  unfold openStore
  rw [h]

theorem reopen_eq : openStore (lineA ++ lineB) = Except.ok reopenState :=
  openStore_ok (lineA ++ lineB) [(['a'], 0), (['b'], 18)]
    (by rw [lines_file2]; exact replay_two)

theorem get_reopen_b : (getOp reopenState ['b']).1 = Except.ok (some bigV) := by
  refine getOp_set_hit reopenState ['b'] bigV 18 ?_ ?_
  · rw [show reopenState.index = [(['a'], 0), (['b'], 18)] from rfl]
    decide
  · rw [show reopenState.file = lineA ++ lineB from rfl]
    rw [show readLineRaw (lineA ++ lineB) 18 = readLine0 lineB from by
      rw [← lineA_len]
      exact readLineRaw_at_left lineA lineB]
    rw [show readLine0 lineB = lineB from readLine0_encode (Op.Set ['b'] bigV)]
    exact decode_encode_nl (Op.Set ['b'] bigV)

/-! ### Claim theorems about the compaction defect -/

/-- C1 (refuted): the second `set` of the run `open {}`, `set b bigV`,
`set a 1` runs compaction exactly at `sMid`; immediately before it,
`get b` returns the stored value, immediately after it, the same call
fails — `compact` rewrote the log without relocating the index, so
offsets point at the wrong lines. -/
theorem compaction_changes_get :
    set (set emptyStore ['b'] bigV) ['a'] ['1'] = compact sMid ∧
    (getOp sMid ['b']).1 = Except.ok (some bigV) ∧
    (getOp (compact sMid) ['b']).1 = Except.error KvError.InvalidKeyError ∧
    (getOp (compact sMid) ['b']).1 ≠ (getOp sMid ['b']).1 := by
  refine ⟨by rw [step1]; exact step2a, get_sMid_b, by rw [step2b]; exact get_s2state_b, ?_⟩
  rw [step2b, get_s2state_b, get_sMid_b]
  simp

/-- C2 (refuted): `s2state` is reached by `open` on an empty directory
followed by two `set` calls, yet the index entry of key `b` stores
offset 0 while the line at offset 0 of the log decodes to a `Set` record
of the other key `a` — the invariant fails on a reachable state. -/
theorem index_invariant_broken :
    set (set emptyStore ['b'] bigV) ['a'] ['1'] = s2state ∧
    idxLookup ['b'] s2state.index = some 0 ∧
    decode (readLineRaw s2state.file 0) = some (Op.Set ['a'] ['1']) ∧
    (['a'] : Str) ≠ ['b'] := by
  refine ⟨by rw [step1]; exact step2, ?_, ?_, by decide⟩
  · rw [show s2state.index = [(['a'], bigN + 17), (['b'], 0)] from rfl]
    exact idxLookup_b (bigN + 17)
  · rw [show s2state.file = lineA ++ lineB from rfl]
    rw [show readLineRaw (lineA ++ lineB) 0 = lineA from
      readLineRaw_encode_zero (Op.Set ['a'] ['1']) lineB]
    exact decode_encode_nl (Op.Set ['a'] ['1'])

/-- C3 (refuted): before closing, the corrupted engine `s2state` fails
`get b` with an internal-consistency error, but re-opening the same
directory replays the log into fresh offsets and `get b` then returns
the value — the pre-close and post-reopen results differ. -/
theorem replay_not_equivalent :
    set (set emptyStore ['b'] bigV) ['a'] ['1'] = s2state ∧
    (getOp s2state ['b']).1 = Except.error KvError.InvalidKeyError ∧
    openStore s2state.file = Except.ok reopenState ∧
    (getOp reopenState ['b']).1 = Except.ok (some bigV) :=
  ⟨by rw [step1]; exact step2, get_s2state_b, reopen_eq, get_reopen_b⟩

/-- C4 (refuted): after a freshly opened engine performs the successful
calls `set b bigV` then `set a 1`, the subsequent `get a` does not
return `Some "1")` — it fails to parse the bytes at the stale offset,
because the compaction triggered inside the second `set` moved every
line without updating the index. -/
theorem set_get_broken :
    openStore [] = Except.ok emptyStore ∧
    set (set emptyStore ['b'] bigV) ['a'] ['1'] = s2state ∧
    (getOp s2state ['a']).1 = Except.error KvError.SerdeJsonError ∧
    (getOp s2state ['a']).1 ≠ Except.ok (some ['1']) := by
  refine ⟨openStore_nil, by rw [step1]; exact step2, get_s2state_a, ?_⟩
  rw [get_s2state_a]
  simp

/-! ### A second compaction emits garbage (C9) -/

/-- The engine state after a third call, `set c 3`, on the corrupted
`s2state`: compaction reads one stale offset and copies 17 characters
from the middle of the big record, plus that record's terminator, into
the new log as a first "line" that is no record at all.  Key `b` is in
the index but its record is gone. -/
def s3state : KvStore :=
  { index := [(['a'], bigN + 17), (['b'], 0), (['c'], bigN + 35)],
    file := gLine ++ (lineA ++ lineC), log_size := 54 }

theorem thr_le_53 : THRESHOLD ≤ bigN + 53 := by
  unfold THRESHOLD bigN
  omega

theorem idxInsert_c (x y : Nat) :
    idxInsert ['c'] x [(['a'], y), (['b'], 0)] = [(['a'], y), (['b'], 0), (['c'], x)] := by
  simp [idxInsert, show strLt ['c'] ['a'] = false from by decide,
    show strLt ['c'] ['b'] = false from by decide,
    show (['c'] : Str) ≠ ['a'] from by decide,
    show (['c'] : Str) ≠ ['b'] from by decide]

theorem repl_bSuf_append (t : Str) :
    (List.replicate 14 'x' ++ bSuf) ++ t = gBody ++ '\n' :: t := by
  simp only [gBody, bSuf, List.append_assoc, List.cons_append, List.nil_append]

theorem len_AB : (lineA ++ lineB).length = bigN + 35 := by
  rw [List.length_append, lineA_len, lineB_len]
  unfold bigN
  omega

theorem read_garbage3 : readLineRaw ((lineA ++ lineB) ++ lineC) (bigN + 17) = gLine := by
  unfold readLineRaw
  rw [drop_append_le (lineA ++ lineB) lineC (bigN + 17)
    (by rw [len_AB]; unfold bigN; omega)]
  rw [drop_append_ge lineA lineB (bigN + 17) (by rw [lineA_len]; unfold bigN; omega)]
  rw [lineA_len, show bigN + 17 - 18 = bigN - 1 from by unfold bigN; omega]
  rw [drop_lineB_garbage, repl_bSuf_append]
  rw [readLine0_line gBody lineC (by decide)]
  rfl

theorem step3 : set s2state ['c'] ['3'] = s3state := by
  rw [set_eq]
  rw [show encode (Op.Set ['c'] ['3']) ++ ['\n'] = lineC from rfl]
  rw [show s2state.file = lineA ++ lineB from rfl]
  rw [show s2state.index = [(['a'], bigN + 17), (['b'], 0)] from rfl]
  rw [show s2state.log_size = bigN + 35 from rfl]
  rw [len_AB, idxInsert_c, lineC_len]
  rw [show bigN + 35 + 18 = bigN + 53 from by unfold bigN; omega]
  rw [compact_fire _ thr_le_53]
  rw [show ([(['a'], bigN + 17), (['b'], 0), (['c'], bigN + 35)] : Index).map
      (fun kv => readLineRaw ((lineA ++ lineB) ++ lineC) kv.2) =
    [readLineRaw ((lineA ++ lineB) ++ lineC) (bigN + 17),
      readLineRaw ((lineA ++ lineB) ++ lineC) 0,
      readLineRaw ((lineA ++ lineB) ++ lineC) (bigN + 35)] from rfl]
  rw [read_garbage3]
  rw [show readLineRaw ((lineA ++ lineB) ++ lineC) 0 = lineA from by
    rw [List.append_assoc]
    exact readLineRaw_encode_zero (Op.Set ['a'] ['1']) (lineB ++ lineC)]
  rw [show readLineRaw ((lineA ++ lineB) ++ lineC) (bigN + 35) = lineC from by
    rw [show bigN + 35 = (lineA ++ lineB).length from len_AB.symm]
    rw [readLineRaw_at_left (lineA ++ lineB) lineC]
    exact readLine0_encode (Op.Set ['c'] ['3'])]
  rw [show List.flatten [gLine, lineA, lineC] = gLine ++ (lineA ++ (lineC ++ [])) from rfl,
    List.append_nil]
  rw [show (gLine ++ (lineA ++ lineC)).length = 54 from by decide]
  rfl

theorem lines_lineC : lines lineC = [encode (Op.Set ['c'] ['3'])] := by
  rw [show lineC = encode (Op.Set ['c'] ['3']) ++ '\n' :: [] from rfl]
  rw [lines_cons _ _ (newline_not_mem_encode _), lines_nil]

theorem lines_s3file : lines (gLine ++ (lineA ++ lineC)) =
    [gBody, encode (Op.Set ['a'] ['1']), encode (Op.Set ['c'] ['3'])] := by
  rw [show gLine ++ (lineA ++ lineC) = gBody ++ '\n' :: (lineA ++ lineC) from by
    rw [show gLine = gBody ++ ['\n'] from rfl, List.append_assoc]
    rfl]
  rw [lines_cons _ _ (by decide)]
  rw [show lineA ++ lineC = encode (Op.Set ['a'] ['1']) ++ '\n' :: lineC from by
    rw [show lineA = encode (Op.Set ['a'] ['1']) ++ ['\n'] from rfl, List.append_assoc]
    rfl]
  rw [lines_cons _ _ (newline_not_mem_encode _), lines_lineC]

/-- C9 (refuted): after the compaction triggered by `set c 3` on the
corrupted (but reachable) state `s2state`, the index holds the three
keys a, b, c, yet the rewritten log's three lines are a 17-character
garbage fragment that decodes to no record at all, the record of `a`,
and the record of `c` — there is no line for the live key `b`, so the
log is not "one live Set record per indexed key". -/
theorem compaction_leaves_garbage :
    set (set (set emptyStore ['b'] bigV) ['a'] ['1']) ['c'] ['3'] = s3state ∧
    s3state.index.map Prod.fst = [['a'], ['b'], ['c']] ∧
    lines s3state.file = [gBody, encode (Op.Set ['a'] ['1']), encode (Op.Set ['c'] ['3'])] ∧
    decode gBody = none := by
  refine ⟨by rw [step1, step2]; exact step3, by rfl, ?_, by decide⟩
  rw [show s3state.file = gLine ++ (lineA ++ lineC) from rfl]
  exact lines_s3file

end ToyCask
